import Mathlib

/-!
Verification of the dataset normalization/mixing logic of
`sft/mpt-7b/sft-instruction-mpt-7b.py`.

Strings are modelled as `List Char`; Python's `s.split(sep)[i]` indexing is
modelled by locating the leftmost occurrence of `sep` (`splitOnce`), with the
fallible index `[1]` returning `Option` (`none` corresponds to the script's
unchecked `IndexError` on a record lacking a marker, the `MalformedRecord`
condition of the spec).
-/

namespace SftDemo

set_option maxRecDepth 100000

abbrev Str := List Char

/-- The human-turn marker `"### Human: "` (line 77 of the script). -/
def humanMarker : Str := "### Human: ".toList

/-- The assistant-turn marker `"### Assistant: "` (lines 77, 84). -/
def assistantMarker : Str := "### Assistant: ".toList

/-- The constant preamble of the instruction-prompt template (lines 78–80). -/
def preamble : Str :=
  "Below is an instruction that describes a task. Write a response that appropriately completes the request. ### Instruction: ".toList

/-- The constant response-cue suffix appended to the prompt (line 81). -/
def responseCue : Str := " ### Response: ".toList

/-- Locate the leftmost occurrence of `sep` in a string: returns the text
before it and the text after it (Python `split` semantics: non-overlapping,
leftmost-first). -/
def splitOnce (sep : Str) : Str → Option (Str × Str)
  | [] => none
  | c :: rest =>
    if List.isPrefixOf sep (c :: rest) then some ([], List.drop sep.length (c :: rest))
    else (splitOnce sep rest).map (fun pq => (c :: pq.1, pq.2))

/-- Python `s.split(sep)[0]`: text before the first occurrence of `sep`,
the whole string when `sep` is absent. This index never fails. -/
def split0 (sep s : Str) : Str :=
  match splitOnce sep s with
  | none => s
  | some pq => pq.1

/-- Python `s.split(sep)[1]`: text strictly between the first occurrence of
`sep` and the next one (or the end). Fails (`IndexError`) when `sep` is
absent. -/
def split1 (sep s : Str) : Option Str :=
  match splitOnce sep s with
  | none => none
  | some pq => some (split0 sep pq.2)

/-- Lines 77–82: `conversation.split("### Human: ")[1].split("### Assistant: ")[0]`
wrapped in the fixed template. -/
def promptOf (conversation : Str) : Option Str :=
  (split1 humanMarker conversation).map
    (fun chunk => preamble ++ split0 assistantMarker chunk ++ responseCue)

/-- Line 84: `conversation.split("### Assistant: ")[1].split("### Human: ")[0]`. -/
def responseOf (conversation : Str) : Option Str :=
  (split1 assistantMarker conversation).map (fun chunk => split0 humanMarker chunk)

/-- An instruction-following example: the common schema both sources are
normalized into. -/
structure Example where
  prompt : Str
  response : Str
  deriving DecidableEq, Repr

/-- The one failure condition of normalization (spec section 7): a raw
conversation lacking an expected turn marker.  In the script this surfaces as
the `IndexError` of `split(...)[1]`. -/
inductive NormError where
  | MalformedRecord
  deriving DecidableEq, Repr

/-- Normalization of one raw source-B conversation (lines 77–85 for a single
loop iteration, producing the prompt/response pair). -/
def normalize (conversation : Str) : Except NormError Example :=
  match promptOf conversation, responseOf conversation with
  | some p, some r => .ok ⟨p, r⟩
  | _, _ => .error .MalformedRecord

/-- The accumulation loop of lines 72–85: iterates over the raw texts,
appending to the parallel `prompts`/`responses` lists.  On a malformed record
the script dies with the lists in their state at the point of failure; we
return that state in the `error` case.  Note the prompt of a record is
appended (line 83) before its response is computed (line 84). -/
def extractLoop : List Str → List Str × List Str → Except (List Str × List Str) (List Str × List Str)
  | [], acc => .ok acc
  | t :: rest, (ps, rs) =>
    match promptOf t with
    | none => .error (ps, rs)
    | some p =>
      match responseOf t with
      | none => .error (ps ++ [p], rs)
      | some r => extractLoop rest (ps ++ [p], rs ++ [r])

/-- A dataset row: an association list of column name to string value. -/
abbrev Row := List (String × Str)

/-- Column access `row[name]` (Python `KeyError` becomes `none`). -/
def getCol (r : Row) (name : String) : Option Str :=
  match r with
  | [] => none
  | (n, v) :: rest => if n = name then some v else getCol rest name

/-- `datasets.Dataset.add_column`: requires the new column's values to match
the row count and the name to be fresh; appends the column to every row. -/
def addColumn (name : String) (vals : List Str) (rows : List Row) : Option (List Row) :=
  if vals.length = rows.length ∧ rows.all (fun r => (getCol r name).isNone)
  then some (List.zipWith (fun r v => r ++ [(name, v)]) rows vals)
  else none

/-- Lines 95–101: remove every column that is not `prompt` or `response`. -/
def removeOther (r : Row) : Row :=
  r.filter (fun p => p.1 == "prompt" || p.1 == "response")

/-- All-or-nothing traversal (the script crashes on the first failure). -/
def mapOpt (f : α → Option β) : List α → Option (List β)
  | [] => some []
  | a :: l =>
    match f a, mapOpt f l with
    | some b, some l' => some (b :: l')
    | _, _ => none

/-- Lines 72–101: the whole source-B pipeline — read the `text` column,
run the extraction loop, add the `prompt` and `response` columns, drop the
others. -/
def pipelineB (B : List Row) : Option (List Row) :=
  match mapOpt (fun r => getCol r "text") B with
  | none => none
  | some texts =>
    match extractLoop texts ([], []) with
    | .error _ => none
    | .ok (ps, rs) =>
      match addColumn "prompt" ps B with
      | none => none
      | some b1 =>
        match addColumn "response" rs b1 with
        | none => none
        | some b2 => some (b2.map removeOther)

/-- Line 108: `concatenate_datasets([train_dataset, dataset_openassistant["train"]])`
after the source-B pipeline: source A's rows followed by normalized source B. -/
def mix (A B : List Row) : Option (List Row) :=
  (pipelineB B).map (fun b => A ++ b)

/-- Lines 121–126: `formatting_prompts_func` — per index `i`, the string
`f"{dataset['prompt'][i]}\n{dataset['response'][i]}"`. -/
def formatting_prompts_func (prompts responses : List Str) : Option (List Str) :=
  mapOpt
    (fun i =>
      match prompts.get? i, responses.get? i with
      | some p, some r => some (p ++ ['\n'] ++ r)
      | _, _ => none)
    (List.range prompts.length)

/-- Extract a column of a dataset, as handed to `formatting_prompts_func`. -/
def colValues (rows : List Row) (name : String) : Option (List Str) :=
  mapOpt (fun r => getCol r name) rows

instance {ε α : Type} [DecidableEq ε] [DecidableEq α] : DecidableEq (Except ε α) := fun a b =>
  match a, b with
  | .error e, .error e' => decidable_of_iff (e = e') (by simp)
  | .error _, .ok _ => isFalse (fun h => nomatch h)
  | .ok _, .error _ => isFalse (fun h => nomatch h)
  | .ok a, .ok b => decidable_of_iff (a = b) (by simp)

/-! ### Occurrence lemmas

`p <:+: s` (`List.IsInfix`) states that the pattern `p` occurs somewhere in
`s`; the lemmas below decompose occurrences in a concatenation into an
occurrence in either part or one spanning the boundary. -/

theorem prefix_append_cases {p x y : Str} (h : p <+: x ++ y) :
    p <+: x ∨ ∃ c, p = x ++ c ∧ c <+: y := by
  obtain ⟨t, ht⟩ := h
  rcases List.append_eq_append_iff.mp ht with ⟨a, ha, _⟩ | ⟨c, hc, hd⟩
  · exact Or.inl ⟨a, ha.symm⟩
  · exact Or.inr ⟨c, hc, ⟨t, hd.symm⟩⟩

theorem prefix_of_append_of_le {p x y : Str} (h : p <+: x ++ y)
    (hl : p.length ≤ x.length) : p <+: x := by
  rcases prefix_append_cases h with h' | ⟨c, rfl, _⟩
  · exact h'
  · have hc : c = [] := by
      rw [List.length_append] at hl
      exact List.eq_nil_of_length_eq_zero (by omega)
    subst hc
    simp

/-- An occurrence of `p` in `x ++ y` lies in `x`, lies in `y`, or spans the
boundary: `p` breaks at some interior position `k` into a suffix of `x` and a
prefix of `y`. -/
theorem infix_append_cases {p x y : Str} (h : p <:+: x ++ y) :
    p <:+: x ∨ p <:+: y ∨
      ∃ k, 0 < k ∧ k < p.length ∧ p.take k <:+ x ∧ p.drop k <+: y := by
  obtain ⟨s, t, hst⟩ := h
  have hst' : s ++ (p ++ t) = x ++ y := by simpa [List.append_assoc] using hst
  rcases List.append_eq_append_iff.mp hst' with ⟨a, hx1, h1⟩ | ⟨c, _, hy⟩
  · rcases List.append_eq_append_iff.mp h1 with ⟨b, hab, _⟩ | ⟨c, hpc, hyc⟩
    · exact Or.inl ⟨s, b, by rw [hx1, hab, List.append_assoc]⟩
    · by_cases ha : a = []
      · subst ha
        simp only [List.nil_append] at hpc
        subst hpc
        exact Or.inr (Or.inl ⟨[], t, by simp [hyc]⟩)
      · by_cases hc : c = []
        · subst hc
          rw [List.append_nil] at hpc
          subst hpc
          exact Or.inl ⟨s, [], by simp [hx1]⟩
        · refine Or.inr (Or.inr ⟨a.length, List.length_pos.mpr ha, ?_, ?_, ?_⟩)
          · rw [hpc, List.length_append]
            have := List.length_pos.mpr hc
            omega
          · rw [hpc, List.take_left]
            exact ⟨s, hx1.symm⟩
          · rw [hpc, List.drop_left]
            exact ⟨t, hyc.symm⟩
  · exact Or.inr (Or.inl ⟨c, t, by rw [hy, List.append_assoc]⟩)

theorem not_infix_append {p x y : Str} (hx : ¬ p <:+: x) (hy : ¬ p <:+: y)
    (hk : ∀ k, k < p.length → 0 < k → ¬ (p.take k <:+ x ∧ p.drop k <+: y)) :
    ¬ p <:+: x ++ y := by
  intro h
  rcases infix_append_cases h with h | h | ⟨k, h1, h2, h3, h4⟩
  · exact hx h
  · exact hy h
  · exact hk k h2 h1 ⟨h3, h4⟩

/-- Variant of `not_infix_append` discharging the span case on the `y` side. -/
theorem not_infix_append_left {p x y : Str} (hx : ¬ p <:+: x) (hy : ¬ p <:+: y)
    (hk : ∀ k, k < p.length → 0 < k → ¬ p.drop k <+: y) : ¬ p <:+: x ++ y :=
  not_infix_append hx hy (fun k h1 h2 hc => hk k h1 h2 hc.2)

/-- Variant of `not_infix_append` discharging the span case on the `x` side. -/
theorem not_infix_append_right {p x y : Str} (hx : ¬ p <:+: x) (hy : ¬ p <:+: y)
    (hk : ∀ k, k < p.length → 0 < k → ¬ p.take k <:+ x) : ¬ p <:+: x ++ y :=
  not_infix_append hx hy (fun k h1 h2 hc => hk k h1 h2 hc.1)

theorem not_infix_dropLast {sep : Str} (hsep : sep ≠ []) : ¬ sep <:+: sep.dropLast := by
  intro h
  have h1 := h.sublist.length_le
  rw [List.length_dropLast] at h1
  have h2 : 0 < sep.length := List.length_pos.mpr hsep
  omega

/-! ### Characterization of `splitOnce` -/

/-- `splitOnce` returns `none` exactly when the separator does not occur. -/
theorem splitOnce_eq_none_iff {sep : Str} (hsep : sep ≠ []) (s : Str) :
    splitOnce sep s = none ↔ ¬ sep <:+: s := by
  induction s with
  | nil =>
    constructor
    · intro _ h
      exact hsep (List.infix_nil.mp h)
    · intro _
      rfl
  | cons c rest ih =>
    rw [splitOnce]
    by_cases hp : sep <+: c :: rest
    · rw [if_pos (by simpa using hp)]
      constructor
      · intro h
        exact absurd h (by simp)
      · intro h
        exact absurd (List.infix_cons_iff.mpr (Or.inl hp)) h
    · rw [if_neg (by simpa using hp)]
      constructor
      · intro h
        rw [List.infix_cons_iff]
        intro hor
        rcases hor with h1 | h2
        · exact hp h1
        · have hn : splitOnce sep rest = none := by
            cases hso : splitOnce sep rest with
            | none => rfl
            | some pq =>
              rw [hso] at h
              exact absurd h (by simp)
          exact (ih.mp hn) h2
      · intro h
        have hn : splitOnce sep rest = none :=
          ih.mpr (fun h2 => h (List.infix_cons h2))
        rw [hn]
        rfl


/-- When the leftmost occurrence of `sep` is the displayed one (no occurrence
starts earlier, which is guaranteed by `sep` not occurring in
`pre ++ sep.dropLast`), `splitOnce` splits exactly there. -/
theorem splitOnce_first {sep : Str} (hsep : sep ≠ []) :
    ∀ pre post : Str, ¬ sep <:+: pre ++ sep.dropLast →
      splitOnce sep (pre ++ sep ++ post) = some (pre, post) := by
  intro pre
  induction pre with
  | nil =>
    intro post _
    rw [List.nil_append]
    cases sep with
    | nil => exact absurd rfl hsep
    | cons c sep' =>
      rw [List.cons_append, splitOnce]
      rw [if_pos (by simp)]
      rw [← List.cons_append, List.drop_left]
  | cons c pre' ih =>
    intro post hocc
    rw [List.cons_append, List.cons_append, splitOnce]
    have hnp : ¬ sep <+: c :: (pre' ++ sep ++ post) := by
      intro hpref
      refine absurd ?_ hocc
      have hpref' : sep <+: (c :: pre') ++ (sep ++ post) := by
        rw [List.cons_append, ← List.append_assoc]
        exact hpref
      rcases prefix_append_cases hpref' with h1 | ⟨d, hd, hdp⟩
      · exact (h1.trans (List.prefix_append _ _)).isInfix
      · have hlen : d.length ≤ sep.dropLast.length := by
          rw [List.length_dropLast]
          have h2 : sep.length = (c :: pre').length + d.length := by
            rw [hd, List.length_append]
          have h3 : 0 < (c :: pre').length := by simp
          omega
        have hsplit : sep ++ post = sep.dropLast ++ ([sep.getLast hsep] ++ post) := by
          conv_lhs => rw [← List.dropLast_append_getLast hsep]
          rw [List.append_assoc]
        rw [hsplit] at hdp
        have hdl : d <+: sep.dropLast := prefix_of_append_of_le hdp hlen
        obtain ⟨r, hr⟩ := hdl
        refine ⟨[], r, ?_⟩
        rw [List.nil_append]
        conv_lhs => rw [hd, List.cons_append, List.cons_append, List.append_assoc, hr]
        rw [List.cons_append]
    rw [if_neg (by simpa using hnp)]
    have harg : ¬ sep <:+: pre' ++ sep.dropLast := by
      intro h
      refine absurd ?_ hocc
      rw [List.cons_append]
      exact List.infix_cons h
    rw [ih post harg]
    rfl


/-- Splitting `sep ++ post` on `sep` finds the occurrence at position 0. -/
theorem splitOnce_self {sep : Str} (hsep : sep ≠ []) (post : Str) :
    splitOnce sep (sep ++ post) = some ([], post) := by
  have h := splitOnce_first hsep [] post
    (by simpa using not_infix_dropLast hsep)
  simpa using h

/-- When no occurrence of `sep` starts inside `x` (occurrences starting in
`x` are contained in `x ++ y.take (sep.length - 1)`), splitting `x ++ y`
splits inside `y`, with `x` prepended to the before-part. -/
theorem splitOnce_append {sep : Str} :
    ∀ x y : Str, ¬ sep <:+: x ++ y.take (sep.length - 1) →
      splitOnce sep (x ++ y) = (splitOnce sep y).map (fun pq => (x ++ pq.1, pq.2)) := by
  intro x
  induction x with
  | nil =>
    intro y _
    rw [List.nil_append]
    cases splitOnce sep y with
    | none => rfl
    | some pq => rfl
  | cons c x' ih =>
    intro y hocc
    rw [List.cons_append, splitOnce]
    have hnp : ¬ sep <+: c :: (x' ++ y) := by
      intro hpref
      refine absurd ?_ hocc
      have hpref' : sep <+: (c :: x') ++ y := by
        rw [List.cons_append]
        exact hpref
      rcases prefix_append_cases hpref' with h1 | ⟨d, hd, hdp⟩
      · exact (h1.trans (List.prefix_append _ _)).isInfix
      · have hdt : d <+: y.take (sep.length - 1) := by
          rw [List.prefix_take_iff]
          refine ⟨hdp, ?_⟩
          have h2 : sep.length = (c :: x').length + d.length := by
            rw [hd, List.length_append]
          have h3 : 0 < (c :: x').length := by simp
          omega
        obtain ⟨r, hr⟩ := hdt
        refine ⟨[], r, ?_⟩
        rw [List.nil_append]
        conv_lhs => rw [hd, List.cons_append, List.cons_append, List.append_assoc, hr]
        rw [List.cons_append]
    rw [if_neg (by simpa using hnp)]
    have harg : ¬ sep <:+: x' ++ y.take (sep.length - 1) := by
      intro h
      refine absurd ?_ hocc
      rw [List.cons_append]
      exact List.infix_cons h
    rw [ih y harg]
    cases splitOnce sep y with
    | none => rfl
    | some pq => rfl

/-! ### Facts about the concrete markers -/

theorem hm_ne : humanMarker ≠ [] := by decide

theorem am_ne : assistantMarker ≠ [] := by decide

theorem hm_len : humanMarker.length = 11 := by decide

theorem am_len : assistantMarker.length = 15 := by decide

/-- The human marker does not occur in `assistantMarker ++ z` when it does
not occur in `z`: it is not inside the assistant marker and cannot span the
boundary. -/
theorem hm_not_in_am_append {z : Str} (hz : ¬ humanMarker <:+: z) :
    ¬ humanMarker <:+: assistantMarker ++ z :=
  not_infix_append_right (by decide) hz (by decide)

/-- The human marker does not occur in `q ++ (assistantMarker ++ z)` when it
occurs in neither part: a spanning occurrence would overlap the assistant
marker's start. -/
theorem hm_not_in_q_append {q z : Str} (hq : ¬ humanMarker <:+: q)
    (hz : ¬ humanMarker <:+: assistantMarker ++ z) :
    ¬ humanMarker <:+: q ++ (assistantMarker ++ z) := by
  refine not_infix_append_left hq hz ?_
  intro k hk h0 hdrop
  have hle : (humanMarker.drop k).length ≤ assistantMarker.length := by
    rw [List.length_drop, hm_len, am_len]
    omega
  have hf : ∀ k, k < humanMarker.length → 0 < k →
      ¬ humanMarker.drop k <+: assistantMarker := by decide
  exact hf k hk h0 (prefix_of_append_of_le hdrop hle)

/-- The assistant marker does not occur in `humanMarker ++ z` when it does
not occur in `z`. -/
theorem am_not_in_hm_append {z : Str} (hz : ¬ assistantMarker <:+: z) :
    ¬ assistantMarker <:+: humanMarker ++ z :=
  not_infix_append_right (by decide) hz (by decide)

/-- First-occurrence side condition: the assistant marker has no occurrence
before the displayed one in `q ++ assistantMarker ++ ⋯` (no self-overlap). -/
theorem am_first_cond {q : Str} (hq : ¬ assistantMarker <:+: q) :
    ¬ assistantMarker <:+: q ++ assistantMarker.dropLast :=
  not_infix_append_left hq (not_infix_dropLast am_ne) (by decide)

theorem am_first_cond_hm {q : Str} (hq : ¬ assistantMarker <:+: q) :
    ¬ assistantMarker <:+: (humanMarker ++ q) ++ assistantMarker.dropLast := by
  rw [List.append_assoc]
  refine not_infix_append_right (by decide) (am_first_cond hq) (by decide)

/-- First-occurrence side condition for the human marker after a
marker-free block. -/
theorem hm_first_cond {a : Str} (ha : ¬ humanMarker <:+: a) :
    ¬ humanMarker <:+: a ++ humanMarker.dropLast :=
  not_infix_append_left ha (not_infix_dropLast hm_ne) (by decide)

/-- No occurrence of the assistant marker starts inside `a1 ++ humanMarker`
(used to push a split on the assistant marker past the first response and
the following human marker). -/
theorem am_no_early {a1 T : Str} (ha2 : ¬ assistantMarker <:+: a1)
    (hT : T.length ≤ 14) :
    ¬ assistantMarker <:+: (a1 ++ humanMarker) ++ T := by
  rw [List.append_assoc]
  have hmT : ¬ assistantMarker <:+: humanMarker ++ T := by
    refine not_infix_append_right (by decide) ?_ (by decide)
    intro h
    have := h.sublist.length_le
    rw [am_len] at this
    omega
  refine not_infix_append ha2 hmT ?_
  intro k hk h0 hc
  rcases prefix_append_cases hc.2 with h1 | ⟨d, hd, _⟩
  · have hf : ∀ k, k < assistantMarker.length → 0 < k →
        ¬ assistantMarker.drop k <+: humanMarker := by decide
    exact hf k hk h0 h1
  · have hpre : humanMarker <+: assistantMarker.drop k := ⟨d, hd.symm⟩
    have hf : ∀ k, k < assistantMarker.length → 0 < k →
        ¬ humanMarker <+: assistantMarker.drop k := by decide
    exact hf k hk h0 hpre

/-! ### Rewriting helpers for `split0`/`split1` -/

theorem split0_of_none {sep s : Str} (h : splitOnce sep s = none) : split0 sep s = s := by
  simp only [split0, h]

theorem split0_of_some {sep s pre post : Str} (h : splitOnce sep s = some (pre, post)) :
    split0 sep s = pre := by
  simp only [split0, h]

theorem split1_of_none {sep s : Str} (h : splitOnce sep s = none) : split1 sep s = none := by
  simp only [split1, h]

theorem split1_of_some {sep s pre post : Str} (h : splitOnce sep s = some (pre, post)) :
    split1 sep s = some (split0 sep post) := by
  simp only [split1, h]

/-! ### No marker occurrence survives in a generated prompt -/

/-- The human marker does not occur in a generated prompt
`preamble ++ q ++ responseCue`, provided it does not occur in the body `q`
and `q` does not end in the marker with its trailing space removed (in that
one case the leading space of the response cue completes the marker). -/
theorem hm_not_in_prompt {q : Str} (hq : ¬ humanMarker <:+: q)
    (hq10 : ¬ humanMarker.dropLast <:+ q) :
    ¬ humanMarker <:+: preamble ++ (q ++ responseCue) := by
  refine not_infix_append_right (by decide) ?_ (by decide)
  refine not_infix_append hq (by decide) ?_
  intro k hk h0 hc
  by_cases h10 : k = 10
  · subst h10
    refine absurd ?_ hq10
    have heq : humanMarker.take 10 = humanMarker.dropLast := by decide
    rw [← heq]
    exact hc.1
  · have hf : ∀ k, k < humanMarker.length → 0 < k → k ≠ 10 →
        ¬ humanMarker.drop k <+: responseCue := by decide
    exact hf k hk h0 h10 hc.2

/-- Same statement for the assistant marker. -/
theorem am_not_in_prompt {q : Str} (hq : ¬ assistantMarker <:+: q)
    (hq14 : ¬ assistantMarker.dropLast <:+ q) :
    ¬ assistantMarker <:+: preamble ++ (q ++ responseCue) := by
  refine not_infix_append_right (by decide) ?_ (by decide)
  refine not_infix_append hq (by decide) ?_
  intro k hk h0 hc
  by_cases h14 : k = 14
  · subst h14
    refine absurd ?_ hq14
    have heq : assistantMarker.take 14 = assistantMarker.dropLast := by decide
    rw [← heq]
    exact hc.1
  · have hf : ∀ k, k < assistantMarker.length → 0 < k → k ≠ 14 →
        ¬ assistantMarker.drop k <+: responseCue := by decide
    exact hf k hk h0 h14 hc.2

/-! ### Normalization on well-formed records -/

/-- `normalize` on a record holding exactly one human/assistant pair. -/
theorem norm_one_pair {q a : Str} (hq1 : ¬ humanMarker <:+: q)
    (hq2 : ¬ assistantMarker <:+: q) (ha1 : ¬ humanMarker <:+: a)
    (ha2 : ¬ assistantMarker <:+: a) :
    normalize (humanMarker ++ (q ++ (assistantMarker ++ a))) =
      .ok ⟨preamble ++ q ++ responseCue, a⟩ := by
  have h1 : splitOnce humanMarker (humanMarker ++ (q ++ (assistantMarker ++ a))) =
      some ([], q ++ (assistantMarker ++ a)) := splitOnce_self hm_ne _
  have h2 : splitOnce humanMarker (q ++ (assistantMarker ++ a)) = none :=
    (splitOnce_eq_none_iff hm_ne _).mpr (hm_not_in_q_append hq1 (hm_not_in_am_append ha1))
  have h3 : splitOnce assistantMarker (q ++ (assistantMarker ++ a)) = some (q, a) := by
    have h := splitOnce_first am_ne q a (am_first_cond hq2)
    rw [List.append_assoc] at h
    exact h
  have h4 : splitOnce assistantMarker (humanMarker ++ (q ++ (assistantMarker ++ a))) =
      some (humanMarker ++ q, a) := by
    have h := splitOnce_first am_ne (humanMarker ++ q) a (am_first_cond_hm hq2)
    rw [List.append_assoc, List.append_assoc] at h
    exact h
  have h5 : splitOnce humanMarker a = none := (splitOnce_eq_none_iff hm_ne a).mpr ha1
  have h6 : splitOnce assistantMarker a = none := (splitOnce_eq_none_iff am_ne a).mpr ha2
  have hp : promptOf (humanMarker ++ (q ++ (assistantMarker ++ a))) =
      some (preamble ++ q ++ responseCue) := by
    rw [promptOf, split1_of_some h1, Option.map_some', split0_of_none h2, split0_of_some h3]
  have hr : responseOf (humanMarker ++ (q ++ (assistantMarker ++ a))) = some a := by
    rw [responseOf, split1_of_some h4, Option.map_some', split0_of_none h6, split0_of_none h5]
  rw [normalize, hp, hr]

/-- `normalize` on a record holding more than one human/assistant pair:
only the first pair is extracted; everything from the second human marker on
(`rest`, arbitrary) is discarded. -/
theorem norm_multi {q1 a1 rest : Str} (hq1 : ¬ humanMarker <:+: q1)
    (hq2 : ¬ assistantMarker <:+: q1) (hA1 : ¬ humanMarker <:+: a1)
    (hA2 : ¬ assistantMarker <:+: a1) :
    normalize (humanMarker ++ (q1 ++ (assistantMarker ++ (a1 ++ (humanMarker ++ rest))))) =
      .ok ⟨preamble ++ q1 ++ responseCue, a1⟩ := by
  have h1 : splitOnce humanMarker
      (humanMarker ++ (q1 ++ (assistantMarker ++ (a1 ++ (humanMarker ++ rest))))) =
      some ([], q1 ++ (assistantMarker ++ (a1 ++ (humanMarker ++ rest)))) :=
    splitOnce_self hm_ne _
  have h2 : splitOnce humanMarker (q1 ++ (assistantMarker ++ (a1 ++ (humanMarker ++ rest)))) =
      some (q1 ++ (assistantMarker ++ a1), rest) := by
    have hcond : ¬ humanMarker <:+: (q1 ++ (assistantMarker ++ a1)) ++ humanMarker.dropLast := by
      simp only [List.append_assoc]
      exact hm_not_in_q_append hq1 (hm_not_in_am_append (hm_first_cond hA1))
    have h := splitOnce_first hm_ne (q1 ++ (assistantMarker ++ a1)) rest hcond
    simp only [List.append_assoc] at h
    exact h
  have h3 : splitOnce assistantMarker (q1 ++ (assistantMarker ++ a1)) = some (q1, a1) := by
    have h := splitOnce_first am_ne q1 a1 (am_first_cond hq2)
    simp only [List.append_assoc] at h
    exact h
  have h4 : splitOnce assistantMarker
      (humanMarker ++ (q1 ++ (assistantMarker ++ (a1 ++ (humanMarker ++ rest))))) =
      some (humanMarker ++ q1, a1 ++ (humanMarker ++ rest)) := by
    have h := splitOnce_first am_ne (humanMarker ++ q1) (a1 ++ (humanMarker ++ rest))
      (am_first_cond_hm hq2)
    simp only [List.append_assoc] at h
    exact h
  have hp : promptOf
      (humanMarker ++ (q1 ++ (assistantMarker ++ (a1 ++ (humanMarker ++ rest))))) =
      some (preamble ++ q1 ++ responseCue) := by
    rw [promptOf, split1_of_some h1, Option.map_some', split0_of_some h2, split0_of_some h3]
  have hT : (List.take (assistantMarker.length - 1) rest).length ≤ 14 := by
    have h15 : assistantMarker.length - 1 = 14 := by rw [am_len]
    rw [List.length_take, h15]
    exact Nat.min_le_left _ _
  have h5 := splitOnce_append (a1 ++ humanMarker) rest (am_no_early hA2 hT)
  simp only [List.append_assoc] at h5
  have hresp : responseOf
      (humanMarker ++ (q1 ++ (assistantMarker ++ (a1 ++ (humanMarker ++ rest))))) =
      some a1 := by
    rw [responseOf, split1_of_some h4, Option.map_some']
    cases hso : splitOnce assistantMarker rest with
    | none =>
      rw [hso, Option.map_none'] at h5
      rw [split0_of_none h5]
      have h6 : splitOnce humanMarker (a1 ++ (humanMarker ++ rest)) = some (a1, rest) := by
        have h := splitOnce_first hm_ne a1 rest (hm_first_cond hA1)
        simp only [List.append_assoc] at h
        exact h
      rw [split0_of_some h6]
    | some pq =>
      obtain ⟨w, v⟩ := pq
      rw [hso, Option.map_some'] at h5
      rw [split0_of_some h5]
      have h6 : splitOnce humanMarker (a1 ++ (humanMarker ++ w)) = some (a1, w) := by
        have h := splitOnce_first hm_ne a1 w (hm_first_cond hA1)
        simp only [List.append_assoc] at h
        exact h
      rw [split0_of_some h6]
  rw [normalize, hp, hresp]

/-! ### `promptOf`, `responseOf` and `normalize` case lemmas -/

theorem promptOf_eq_none_iff (t : Str) : promptOf t = none ↔ ¬ humanMarker <:+: t := by
  rw [promptOf]
  cases hso : splitOnce humanMarker t with
  | none =>
    rw [split1_of_none hso, Option.map_none']
    exact iff_of_true rfl ((splitOnce_eq_none_iff hm_ne t).mp hso)
  | some pq =>
    obtain ⟨pre, post⟩ := pq
    rw [split1_of_some hso, Option.map_some']
    refine iff_of_false (by simp) ?_
    intro hni
    have hcontra := (splitOnce_eq_none_iff hm_ne t).mpr hni
    rw [hso] at hcontra
    exact Option.noConfusion hcontra

theorem responseOf_eq_none_iff (t : Str) : responseOf t = none ↔ ¬ assistantMarker <:+: t := by
  rw [responseOf]
  cases hso : splitOnce assistantMarker t with
  | none =>
    rw [split1_of_none hso, Option.map_none']
    exact iff_of_true rfl ((splitOnce_eq_none_iff am_ne t).mp hso)
  | some pq =>
    obtain ⟨pre, post⟩ := pq
    rw [split1_of_some hso, Option.map_some']
    refine iff_of_false (by simp) ?_
    intro hni
    have hcontra := (splitOnce_eq_none_iff am_ne t).mpr hni
    rw [hso] at hcontra
    exact Option.noConfusion hcontra

theorem normalize_of_prompt_none {t : Str} (h : promptOf t = none) :
    normalize t = .error .MalformedRecord := by
  rw [normalize, h]

theorem normalize_of_response_none {t : Str} {p : Str} (hp : promptOf t = some p)
    (h : responseOf t = none) : normalize t = .error .MalformedRecord := by
  rw [normalize, hp, h]

theorem normalize_of_somes {t p r : Str} (hp : promptOf t = some p)
    (hr : responseOf t = some r) : normalize t = .ok ⟨p, r⟩ := by
  rw [normalize, hp, hr]

theorem promptOf_some_of {t : Str} (h : humanMarker <:+: t) :
    ∃ p, promptOf t = some p := by
  cases hpc : promptOf t with
  | none => exact absurd ((promptOf_eq_none_iff t).mp hpc) (not_not_intro h)
  | some p => exact ⟨p, rfl⟩

theorem responseOf_some_of {t : Str} (h : assistantMarker <:+: t) :
    ∃ r, responseOf t = some r := by
  cases hrc : responseOf t with
  | none => exact absurd ((responseOf_eq_none_iff t).mp hrc) (not_not_intro h)
  | some r => exact ⟨r, rfl⟩

/-! ### Structural lemmas for the pipeline -/

theorem mapOpt_length {α β : Type} {f : α → Option β} :
    ∀ {l : List α} {l' : List β}, mapOpt f l = some l' → l'.length = l.length := by
  intro l
  induction l with
  | nil =>
    intro l' h
    simp only [mapOpt, Option.some.injEq] at h
    subst h
    rfl
  | cons a l ih =>
    intro l' h
    rw [mapOpt] at h
    cases hfa : f a with
    | none =>
      rw [hfa] at h
      exact absurd h (by simp)
    | some b =>
      rw [hfa] at h
      cases hml : mapOpt f l with
      | none =>
        rw [hml] at h
        exact absurd h (by simp)
      | some bs =>
        rw [hml] at h
        simp only [Option.some.injEq] at h
        subst h
        simp [ih hml]

theorem mapOpt_eq_map {α β : Type} {f : α → Option β} {g : α → β} :
    ∀ {l : List α}, (∀ a ∈ l, f a = some (g a)) → mapOpt f l = some (l.map g) := by
  intro l
  induction l with
  | nil =>
    intro _
    rfl
  | cons a l ih =>
    intro h
    rw [mapOpt, h a (List.mem_cons_self a l), ih (fun b hb => h b (List.mem_cons_of_mem a hb))]
    rfl

theorem extractLoop_ok_length :
    ∀ (ts : List Str) (ps0 rs0 ps rs : List Str),
      extractLoop ts (ps0, rs0) = .ok (ps, rs) →
      ps.length = ps0.length + ts.length ∧ rs.length = rs0.length + ts.length := by
  intro ts
  induction ts with
  | nil =>
    intro ps0 rs0 ps rs h
    rw [extractLoop] at h
    simp only [Except.ok.injEq, Prod.mk.injEq] at h
    obtain ⟨h1, h2⟩ := h
    subst h1
    subst h2
    simp
  | cons t ts ih =>
    intro ps0 rs0 ps rs h
    rw [extractLoop] at h
    cases hpc : promptOf t with
    | none =>
      rw [hpc] at h
      exact absurd h (by simp)
    | some p =>
      rw [hpc] at h
      cases hrc : responseOf t with
      | none =>
        rw [hrc] at h
        exact absurd h (by simp)
      | some r =>
        rw [hrc] at h
        obtain ⟨hl1, hl2⟩ := ih (ps0 ++ [p]) (rs0 ++ [r]) ps rs h
        simp only [List.length_append, List.length_cons, List.length_nil] at hl1 hl2
        simp only [List.length_cons]
        exact ⟨by omega, by omega⟩

theorem addColumn_some {name : String} {vals : List Str} {rows out : List Row}
    (h : addColumn name vals rows = some out) :
    out.length = rows.length ∧ vals.length = rows.length := by
  rw [addColumn] at h
  by_cases hc : vals.length = rows.length ∧ rows.all (fun r => (getCol r name).isNone)
  · rw [if_pos hc] at h
    simp only [Option.some.injEq] at h
    subst h
    refine ⟨?_, hc.1⟩
    rw [List.length_zipWith, hc.1, Nat.min_self]
  · rw [if_neg hc] at h
    exact absurd h (by simp)

theorem pipelineB_shape {B b : List Row} (h : pipelineB B = some b) :
    b.length = B.length := by
  rw [pipelineB] at h
  split at h
  · exact absurd h (by simp)
  · next texts hm1 =>
    split at h
    · exact absurd h (by simp)
    · next ps rs he =>
      split at h
      · exact absurd h (by simp)
      · next b1 ha1 =>
        split at h
        · exact absurd h (by simp)
        · next b2 ha2 =>
          simp only [Option.some.injEq] at h
          subst h
          rw [List.length_map, (addColumn_some ha2).1, (addColumn_some ha1).1]

theorem mix_decomp {A B D : List Row} (h : mix A B = some D) :
    ∃ b, pipelineB B = some b ∧ D = A ++ b := by
  rw [mix] at h
  cases hp : pipelineB B with
  | none =>
    rw [hp] at h
    exact absurd h (by simp)
  | some b =>
    rw [hp, Option.map_some'] at h
    simp only [Option.some.injEq] at h
    exact ⟨b, rfl, h.symm⟩

theorem pipelineB_cols {B b : List Row} (h : pipelineB B = some b) :
    ∀ r ∈ b, ∀ q ∈ r, q.1 = "prompt" ∨ q.1 = "response" := by
  rw [pipelineB] at h
  split at h
  · exact absurd h (by simp)
  · next texts hm1 =>
    split at h
    · exact absurd h (by simp)
    · next ps rs he =>
      split at h
      · exact absurd h (by simp)
      · next b1 ha1 =>
        split at h
        · exact absurd h (by simp)
        · next b2 ha2 =>
          simp only [Option.some.injEq] at h
          subst h
          intro r hr q hq
          rw [List.mem_map] at hr
          obtain ⟨r', _, hr'⟩ := hr
          subst hr'
          rw [removeOther, List.mem_filter] at hq
          simpa using hq.2

theorem map_getD_range {α : Type} (d : α) :
    ∀ l : List α, (List.range l.length).map (fun i => l.getD i d) = l := by
  intro l
  induction l with
  | nil => rfl
  | cons a l ih =>
    rw [List.length_cons, List.range_succ_eq_map, List.map_cons, List.map_map]
    simp only [List.getD_cons_zero, Function.comp_def, Nat.succ_eq_add_one, List.getD_cons_succ]
    rw [ih]

/-! ### Claims -/

/-- C2: `normalize` on an input lacking the assistant marker — and more
generally lacking either turn marker — fails with the single distinguished
`MalformedRecord` condition, and it fails in no other situation (in the
script, this is the `IndexError` of `split(...)[1]`, which fires exactly when
the marker is absent). -/
theorem C2_normalize_error_iff (t : Str) :
    normalize t = .error .MalformedRecord ↔
      (¬ humanMarker <:+: t ∨ ¬ assistantMarker <:+: t) := by
  constructor
  · intro h
    by_cases hh : humanMarker <:+: t
    · by_cases ha : assistantMarker <:+: t
      · obtain ⟨p, hp⟩ := promptOf_some_of hh
        obtain ⟨r, hr⟩ := responseOf_some_of ha
        rw [normalize_of_somes hp hr] at h
        exact absurd h (by simp)
      · exact Or.inr ha
    · exact Or.inl hh
  · intro h
    rcases h with hh | ha
    · exact normalize_of_prompt_none ((promptOf_eq_none_iff t).mpr hh)
    · cases hpc : promptOf t with
      | none => exact normalize_of_prompt_none hpc
      | some p => exact normalize_of_response_none hpc ((responseOf_eq_none_iff t).mpr ha)

/-- C5: the mixed dataset's length is the sum of the two sources' lengths. -/
theorem C5_mix_length {A B D : List Row} (h : mix A B = some D) :
    D.length = A.length + B.length := by
  obtain ⟨b, hp, rfl⟩ := mix_decomp h
  rw [List.length_append, pipelineB_shape hp]

/-- C6: mixing preserves order: the first `len A` elements of the result are
exactly `A` in original order, and the remaining elements are exactly the
normalized form of `B` — so every element of `A` precedes every
`B`-derived element. -/
theorem C6_mix_order {A B D : List Row} (h : mix A B = some D) :
    D.take A.length = A ∧ pipelineB B = some (D.drop A.length) := by
  obtain ⟨b, hp, rfl⟩ := mix_decomp h
  constructor
  · exact List.take_left A b
  · rw [List.drop_left]
    exact hp

/-- C7: the formatting function maps each example to exactly
`prompt ++ "\n" ++ response`: a single newline separator and nothing else
added. -/
theorem C7_format (ds : List Example) :
    formatting_prompts_func (ds.map Example.prompt) (ds.map Example.response) =
      some (ds.map (fun e => e.prompt ++ ['\n'] ++ e.response)) := by
  rw [formatting_prompts_func]
  have hg : ∀ i ∈ List.range (ds.map Example.prompt).length,
      (match (ds.map Example.prompt).get? i, (ds.map Example.response).get? i with
        | some p, some r => some (p ++ ['\n'] ++ r)
        | _, _ => none) =
      some ((ds.map (fun e => e.prompt ++ ['\n'] ++ e.response)).getD i []) := by
    intro i hi
    rw [List.mem_range, List.length_map] at hi
    have hget : ds[i]? = some (ds.get ⟨i, hi⟩) := by
      rw [← List.get?_eq_getElem?]
      exact List.get?_eq_get hi
    simp only [List.get?_eq_getElem?, List.getElem?_map, List.getD_eq_getElem?_getD]
    rw [hget]
    rfl
  rw [mapOpt_eq_map hg]
  have hfin := map_getD_range ([] : Str) (ds.map (fun e => e.prompt ++ ['\n'] ++ e.response))
  rw [List.length_map] at hfin
  rw [List.length_map, hfin]

/-- C8: every element of the mixed dataset carries only the `prompt` and
`response` fields; the hypothesis on `A` is the dataset-source contract
(source A exposes exactly those fields), and source B's other columns are
removed by the pipeline. -/
theorem C8_mix_columns {A B D : List Row}
    (hA : ∀ r ∈ A, ∀ q ∈ r, q.1 = "prompt" ∨ q.1 = "response")
    (h : mix A B = some D) :
    ∀ r ∈ D, ∀ q ∈ r, q.1 = "prompt" ∨ q.1 = "response" := by
  obtain ⟨b, hp, rfl⟩ := mix_decomp h
  intro r hr
  rw [List.mem_append] at hr
  rcases hr with hr | hr
  · exact hA r hr
  · exact pipelineB_cols hp r hr

/-- C9 (amended): every `Example` produced by `normalize` has a non-empty
prompt ending with the response-cue suffix; the response, however, can be
empty, so the claim's "both fields are non-empty" does not hold. -/
theorem C9_amended {s : Str} {e : Example} (h : normalize s = .ok e) :
    e.prompt ≠ [] ∧ responseCue <:+ e.prompt := by
  cases hpc : promptOf s with
  | none =>
    rw [normalize_of_prompt_none hpc] at h
    exact absurd h (by simp)
  | some p =>
    cases hrc : responseOf s with
    | none =>
      rw [normalize_of_response_none hpc hrc] at h
      exact absurd h (by simp)
    | some r =>
      rw [normalize_of_somes hpc hrc] at h
      simp only [Except.ok.injEq] at h
      subst h
      rw [promptOf] at hpc
      cases hs1 : split1 humanMarker s with
      | none =>
        rw [hs1, Option.map_none'] at hpc
        exact absurd hpc (by simp)
      | some chunk =>
        rw [hs1, Option.map_some'] at hpc
        simp only [Option.some.injEq] at hpc
        have hsuf : responseCue <:+ p := by
          rw [← hpc]
          exact List.suffix_append _ _
        refine ⟨?_, hsuf⟩
        intro heq
        have heq' : p = [] := heq
        rw [heq'] at hsuf
        have hl := hsuf.sublist.length_le
        have hc : responseCue.length = 15 := by decide
        simp [hc] at hl

/-- C10: a record with the human marker but no assistant marker makes the
loop fail after its prompt was appended but before any response was: the
saved state has the prompts list one element longer than the responses
list. -/
theorem C10_loop_state (t : Str) (rest : List Str) (ps rs : List Str)
    (h1 : humanMarker <:+: t) (h2 : ¬ assistantMarker <:+: t)
    (h3 : ps.length = rs.length) :
    extractLoop (t :: rest) (ps, rs) = .error (ps ++ (promptOf t).toList, rs) ∧
      (ps ++ (promptOf t).toList).length = rs.length + 1 := by
  obtain ⟨p, hp⟩ := promptOf_some_of h1
  have hr : responseOf t = none := (responseOf_eq_none_iff t).mpr h2
  rw [extractLoop, hp, hr]
  constructor
  · rfl
  · simp [h3]

/-- C1 is refuted as stated, on its "no leftover marker" clause: the record
`"### Human: ### Human:### Assistant: A"` is a well-formed one-pair record —
neither marker occurs in its instruction body `"### Human:"` nor in its
response `"A"` — yet the generated prompt contains the human marker, because
the body ends in the marker minus its trailing space and the response cue's
leading space completes it. -/
theorem C1_counterexample :
    (¬ humanMarker <:+: "### Human:".toList) ∧
    (¬ assistantMarker <:+: "### Human:".toList) ∧
    (¬ humanMarker <:+: "A".toList) ∧
    (¬ assistantMarker <:+: "A".toList) ∧
    normalize (humanMarker ++ ("### Human:".toList ++ (assistantMarker ++ "A".toList))) =
      .ok ⟨preamble ++ "### Human:".toList ++ responseCue, "A".toList⟩ ∧
    humanMarker <:+: preamble ++ "### Human:".toList ++ responseCue := by
  refine ⟨by decide, by decide, by decide, by decide, by decide, by decide⟩

/-- C1 (amended): for a well-formed one-pair record `hm ++ q ++ am ++ a`
(no marker occurs in the body `q` or the response `a`), `normalize` returns
the prompt `preamble ++ q ++ responseCue` and the response `a`; the response
contains no marker, and the prompt contains none either, provided `q` does
not end in a marker stripped of its trailing space (the case the
counterexample exhibits, where the cue's leading space recreates a
marker). -/
theorem C1_amended {q a : Str} (hq1 : ¬ humanMarker <:+: q)
    (hq2 : ¬ assistantMarker <:+: q) (ha1 : ¬ humanMarker <:+: a)
    (ha2 : ¬ assistantMarker <:+: a)
    (hq10 : ¬ humanMarker.dropLast <:+ q) (hq14 : ¬ assistantMarker.dropLast <:+ q) :
    normalize (humanMarker ++ (q ++ (assistantMarker ++ a))) =
      .ok ⟨preamble ++ q ++ responseCue, a⟩ ∧
    (¬ humanMarker <:+: preamble ++ q ++ responseCue) ∧
    (¬ assistantMarker <:+: preamble ++ q ++ responseCue) ∧
    (¬ humanMarker <:+: a) ∧ (¬ assistantMarker <:+: a) := by
  refine ⟨norm_one_pair hq1 hq2 ha1 ha2, ?_, ?_, ha1, ha2⟩
  · have h := hm_not_in_prompt hq1 hq10
    rw [← List.append_assoc] at h
    exact h
  · have h := am_not_in_prompt hq2 hq14
    rw [← List.append_assoc] at h
    exact h

/-- C3 is refuted as stated: on the scenario record the extracted
instruction body is `"Q1 "` — with its trailing space — so the prompt is
`preamble ++ "Q1 " ++ " ### Response: "`, which differs (by one space) from
the claimed `preamble ++ "Q1" ++ " ### Response: "`. -/
theorem C3_counterexample :
    normalize "### Human: Q1 ### Assistant: A1 ### Human: Q2".toList =
      .ok ⟨preamble ++ "Q1 ".toList ++ responseCue, "A1 ".toList⟩ ∧
    preamble ++ "Q1 ".toList ++ responseCue ≠ preamble ++ "Q1".toList ++ responseCue := by
  refine ⟨by decide, by decide⟩

/-- C3 (amended): on `A = [{prompt:"P1", response:"R1"}]` and raw
`B = ["### Human: Q1 ### Assistant: A1 ### Human: Q2"]`, the normalized B
example keeps the body's trailing space: its prompt is
`preamble ++ "Q1 " ++ " ### Response: "` and its response is `"A1 "`;
`mix A B` has the stated two rows (hence length 2), and the formatted text
of the second element starts with the template text. -/
theorem C3_amended :
    normalize "### Human: Q1 ### Assistant: A1 ### Human: Q2".toList =
      .ok ⟨preamble ++ "Q1 ".toList ++ responseCue, "A1 ".toList⟩ ∧
    mix [[("prompt", "P1".toList), ("response", "R1".toList)]]
        [[("text", "### Human: Q1 ### Assistant: A1 ### Human: Q2".toList)]] =
      some [[("prompt", "P1".toList), ("response", "R1".toList)],
        [("prompt", preamble ++ "Q1 ".toList ++ responseCue), ("response", "A1 ".toList)]] ∧
    ([[("prompt", "P1".toList), ("response", "R1".toList)],
        [("prompt", preamble ++ "Q1 ".toList ++ responseCue),
          ("response", "A1 ".toList)]] : List Row).length = 2 ∧
    colValues [[("prompt", "P1".toList), ("response", "R1".toList)],
        [("prompt", preamble ++ "Q1 ".toList ++ responseCue), ("response", "A1 ".toList)]]
        "prompt" = some ["P1".toList, preamble ++ "Q1 ".toList ++ responseCue] ∧
    colValues [[("prompt", "P1".toList), ("response", "R1".toList)],
        [("prompt", preamble ++ "Q1 ".toList ++ responseCue), ("response", "A1 ".toList)]]
        "response" = some ["R1".toList, "A1 ".toList] ∧
    formatting_prompts_func ["P1".toList, preamble ++ "Q1 ".toList ++ responseCue]
        ["R1".toList, "A1 ".toList] =
      some ["P1".toList ++ ['\n'] ++ "R1".toList,
        (preamble ++ "Q1 ".toList ++ responseCue) ++ ['\n'] ++ "A1 ".toList] ∧
    preamble <+: (preamble ++ "Q1 ".toList ++ responseCue) ++ ['\n'] ++ "A1 ".toList := by
  refine ⟨by decide, by decide, by decide, by decide, by decide, by decide, by decide⟩

/-- C4: on a record with more than one human/assistant pair —
`hm ++ q1 ++ am ++ a1 ++ hm ++ rest` with `rest` arbitrary — only the first
pair is extracted: the prompt body stops at the first assistant marker, the
response stops at the following human marker, and the record's whole
remainder is discarded. -/
theorem C4_multi_pair {q1 a1 rest : Str} (hq1 : ¬ humanMarker <:+: q1)
    (hq2 : ¬ assistantMarker <:+: q1) (hA1 : ¬ humanMarker <:+: a1)
    (hA2 : ¬ assistantMarker <:+: a1) :
    normalize
        (humanMarker ++ (q1 ++ (assistantMarker ++ (a1 ++ (humanMarker ++ rest))))) =
      .ok ⟨preamble ++ q1 ++ responseCue, a1⟩ :=
  norm_multi hq1 hq2 hA1 hA2

/-- C9 is refuted as stated: `normalize` can produce an `Example` whose
response field is empty — here the assistant marker ends the record — so
"both fields are non-empty strings" fails. -/
theorem C9_counterexample :
    normalize "### Human: Hi### Assistant: ".toList =
      .ok ⟨preamble ++ "Hi".toList ++ responseCue, []⟩ := by decide

/-! ### Witnesses -/

/-- Witness for C1 (amended) at a concrete well-formed record. -/
theorem C1_witness :
    (¬ humanMarker <:+: "Tell me a joke.".toList) ∧
    (¬ assistantMarker <:+: "Tell me a joke.".toList) ∧
    (¬ humanMarker <:+: "Sure!".toList) ∧
    (¬ assistantMarker <:+: "Sure!".toList) ∧
    (¬ humanMarker.dropLast <:+ "Tell me a joke.".toList) ∧
    (¬ assistantMarker.dropLast <:+ "Tell me a joke.".toList) ∧
    (normalize
        (humanMarker ++ ("Tell me a joke.".toList ++ (assistantMarker ++ "Sure!".toList))) =
        .ok ⟨preamble ++ "Tell me a joke.".toList ++ responseCue, "Sure!".toList⟩ ∧
      (¬ humanMarker <:+: preamble ++ "Tell me a joke.".toList ++ responseCue) ∧
      (¬ assistantMarker <:+: preamble ++ "Tell me a joke.".toList ++ responseCue) ∧
      (¬ humanMarker <:+: "Sure!".toList) ∧ (¬ assistantMarker <:+: "Sure!".toList)) :=
  ⟨by decide, by decide, by decide, by decide, by decide, by decide,
    C1_amended (by decide) (by decide) (by decide) (by decide) (by decide) (by decide)⟩

/-- Witness for C4 at the spec's example record (second pair discarded). -/
theorem C4_witness :
    (¬ humanMarker <:+: "Q1 ".toList) ∧ (¬ assistantMarker <:+: "Q1 ".toList) ∧
    (¬ humanMarker <:+: "A1 ".toList) ∧ (¬ assistantMarker <:+: "A1 ".toList) ∧
    normalize
        (humanMarker ++
          ("Q1 ".toList ++ (assistantMarker ++ ("A1 ".toList ++ (humanMarker ++ "Q2".toList))))) =
      .ok ⟨preamble ++ "Q1 ".toList ++ responseCue, "A1 ".toList⟩ :=
  ⟨by decide, by decide, by decide, by decide,
    C4_multi_pair (by decide) (by decide) (by decide) (by decide)⟩

/-- Witness for C5 at a concrete one-row/one-row mix. -/
theorem C5_witness :
    mix [[("prompt", "P1".toList), ("response", "R1".toList)]]
        [[("text", "### Human: Q ### Assistant: A".toList)]] =
      some [[("prompt", "P1".toList), ("response", "R1".toList)],
        [("prompt", preamble ++ "Q ".toList ++ responseCue), ("response", "A".toList)]] ∧
    ([[("prompt", "P1".toList), ("response", "R1".toList)],
        [("prompt", preamble ++ "Q ".toList ++ responseCue),
          ("response", "A".toList)]] : List Row).length =
      ([[("prompt", "P1".toList), ("response", "R1".toList)]] : List Row).length +
        ([[("text", "### Human: Q ### Assistant: A".toList)]] : List Row).length :=
  ⟨by decide, C5_mix_length (by decide)⟩

/-- Witness for C6 at the same concrete mix. -/
theorem C6_witness :
    mix [[("prompt", "P1".toList), ("response", "R1".toList)]]
        [[("text", "### Human: Q ### Assistant: A".toList)]] =
      some [[("prompt", "P1".toList), ("response", "R1".toList)],
        [("prompt", preamble ++ "Q ".toList ++ responseCue), ("response", "A".toList)]] ∧
    (([[("prompt", "P1".toList), ("response", "R1".toList)],
        [("prompt", preamble ++ "Q ".toList ++ responseCue),
          ("response", "A".toList)]] : List Row).take
        ([[("prompt", "P1".toList), ("response", "R1".toList)]] : List Row).length =
      [[("prompt", "P1".toList), ("response", "R1".toList)]] ∧
    pipelineB [[("text", "### Human: Q ### Assistant: A".toList)]] =
      some (([[("prompt", "P1".toList), ("response", "R1".toList)],
        [("prompt", preamble ++ "Q ".toList ++ responseCue),
          ("response", "A".toList)]] : List Row).drop
        ([[("prompt", "P1".toList), ("response", "R1".toList)]] : List Row).length)) :=
  ⟨by decide, C6_mix_order (by decide)⟩

/-- Witness for C8 at the same concrete mix. -/
theorem C8_witness :
    (∀ r ∈ ([[("prompt", "P1".toList), ("response", "R1".toList)]] : List Row),
      ∀ q ∈ r, q.1 = "prompt" ∨ q.1 = "response") ∧
    mix [[("prompt", "P1".toList), ("response", "R1".toList)]]
        [[("text", "### Human: Q ### Assistant: A".toList)]] =
      some [[("prompt", "P1".toList), ("response", "R1".toList)],
        [("prompt", preamble ++ "Q ".toList ++ responseCue), ("response", "A".toList)]] ∧
    (∀ r ∈ ([[("prompt", "P1".toList), ("response", "R1".toList)],
        [("prompt", preamble ++ "Q ".toList ++ responseCue),
          ("response", "A".toList)]] : List Row),
      ∀ q ∈ r, q.1 = "prompt" ∨ q.1 = "response") :=
  ⟨by decide, by decide,
    @C8_mix_columns [[("prompt", "P1".toList), ("response", "R1".toList)]]
      [[("text", "### Human: Q ### Assistant: A".toList)]]
      [[("prompt", "P1".toList), ("response", "R1".toList)],
        [("prompt", preamble ++ "Q ".toList ++ responseCue), ("response", "A".toList)]]
      (by decide) (by decide)⟩

/-- Witness for C9 (amended) at a concrete successful normalization. -/
theorem C9_witness :
    normalize "### Human: Hi### Assistant: Yes".toList =
      .ok ⟨preamble ++ "Hi".toList ++ responseCue, "Yes".toList⟩ ∧
    ((preamble ++ "Hi".toList ++ responseCue ≠ []) ∧
      responseCue <:+ preamble ++ "Hi".toList ++ responseCue) :=
  ⟨by decide,
    @C9_amended "### Human: Hi### Assistant: Yes".toList
      ⟨preamble ++ "Hi".toList ++ responseCue, "Yes".toList⟩ (by decide)⟩

/-- Witness for C10: one malformed record (human marker, no assistant
marker), starting from empty lists. -/
theorem C10_witness :
    humanMarker <:+: "### Human: lone".toList ∧
    (¬ assistantMarker <:+: "### Human: lone".toList) ∧
    (extractLoop ["### Human: lone".toList] ([], []) =
        .error (([] : List Str) ++ (promptOf "### Human: lone".toList).toList, []) ∧
      (([] : List Str) ++ (promptOf "### Human: lone".toList).toList).length =
        ([] : List Str).length + 1) :=
  ⟨by decide, by decide,
    C10_loop_state "### Human: lone".toList [] [] [] (by decide) (by decide) rfl⟩

end SftDemo
